import Mathlib

/-!
Shallow embedding of the wall-occupancy core of `app.py` from the
last_gallery repository: wall-state persistence (`save_wall_state` /
`load_wall_state` over the SQLite `placements` table, with
`USE_SQLITE_PLACEMENTS = True`), the undo snapshot stack
(`push_snapshot` / `pop_latest_snapshot` over `placement_snapshots`),
the legacy JSON history stack (`push_history_snapshot` /
`pop_history_snapshot`), the admin mutation handlers, and the SVG tile
classifier `_parse_svg_tiles` (also `parse_svg_tiles` of
`grid utilities/repair_tiles.py`).

Python dicts are modelled as association lists in insertion order with
pairwise-distinct keys; the `placements` table is modelled as its list
of rows.  A missing request parameter (`data.get(...)` returning `None`)
and the empty string are both falsy in Python and are modelled as `""`.
-/

namespace LastGallery

/-- A Python dict `tile_id -> asset_id`, as an association list in insertion
order.  Dicts built by the code always have pairwise-distinct keys. -/
abbrev Wall := List (String × String)

/-- The keys of a dict, in order. -/
def wallKeys (w : Wall) : List String := w.map Prod.fst

/-- Python `tile_id in wall_state` (dict membership). -/
def dictMem (t : String) (w : Wall) : Bool := w.any (fun p => p.1 == t)

/-- Python `wall_state[tile_id]` / `wall_state.get(tile_id)`: the value at
the first entry with the given key. -/
def dictLookup (t : String) : Wall → Option String
  | [] => none
  | p :: rest => if p.1 = t then some p.2 else dictLookup t rest

/-- Python `wall_state[tile_id] = asset_id` (dict assignment: update the
existing entry in place, otherwise append a new entry at the end). -/
def dictInsert (w : Wall) (t a : String) : Wall :=
  if dictMem t w then w.map (fun p => if p.1 = t then (t, a) else p)
  else w ++ [(t, a)]

/-- Python `del wall_state[tile_id]` (dict deletion). -/
def dictErase (w : Wall) (t : String) : Wall := w.filter (fun p => p.1 != t)

/-- A Python dict comprehension over a list of key-value pairs: left-to-right
insertion, a later duplicate key overwriting an earlier one. -/
def dictOfPairs (pairs : List (String × String)) : Wall :=
  pairs.foldl (fun d p => dictInsert d p.1 p.2) []

/-- SQLite `INSERT OR REPLACE INTO placements` with primary key `tile_id`:
the conflicting row, if any, is deleted and the fresh row inserted. -/
def insertOrReplace (rows : Wall) (t a : String) : Wall :=
  rows.filter (fun p => p.1 != t) ++ [(t, a)]

/-- `save_wall_state` (SQLite branch): `DELETE FROM placements`, then one
`INSERT OR REPLACE` per entry of `state_dict`, in dict order. -/
def save_wall_state (state_dict : Wall) : Wall :=
  state_dict.foldl (fun rows p => insertOrReplace rows p.1 p.2) []

/-- `load_wall_state` (SQLite branch): `SELECT tile_id, asset_id FROM
placements WHERE asset_id IS NOT NULL AND asset_id != ''`. -/
def load_wall_state (rows : Wall) : Wall :=
  rows.filter (fun p => p.2 != "")

/-- The `placement_snapshots` table: one entry per row, the action descriptor
together with the saved wall state (`created_at` is irrelevant here, and the
autoincrement `id` order is the list order, the head being the newest row). -/
abbrev Snapshots := List (String × Wall)

/-- `push_snapshot`: INSERT the snapshot row, then return
`SELECT COUNT(*) FROM placement_snapshots`.  No row is ever deleted. -/
def push_snapshot (action : String) (state : Wall) (snaps : Snapshots) :
    Snapshots × Nat :=
  let snaps2 := (action, state) :: snaps
  (snaps2, snaps2.length)

/-- `pop_latest_snapshot`: SELECT the row with the greatest `id` (the
newest), DELETE it and return it; `none` with the table unchanged when it is
empty. -/
def pop_latest_snapshot (snaps : Snapshots) :
    Option (String × Wall) × Snapshots :=
  match snaps with
  | [] => (none, [])
  | s :: rest => (some s, rest)

/-- `MAX_HISTORY_DEPTH = 5` in `app.py`. -/
def MAX_HISTORY_DEPTH : Nat := 5

/-- `push_history_snapshot`: append a deep copy of the current state to the
JSON history list (oldest first, newest at the tail), trim to the last
`MAX_HISTORY_DEPTH` entries, save, and return the new length. -/
def push_history_snapshot (history : List Wall) (current_state : Wall) :
    List Wall × Nat :=
  let h2 := history ++ [current_state]
  let h3 :=
    if MAX_HISTORY_DEPTH < h2.length then h2.drop (h2.length - MAX_HISTORY_DEPTH)
    else h2
  (h3, h3.length)

/-- `pop_history_snapshot`: pop the newest (last) entry of the JSON history,
or `none` with count 0 when the history is empty. -/
def pop_history_snapshot (history : List Wall) :
    Option Wall × List Wall × Nat :=
  match history.getLast? with
  | none => (none, [], 0)
  | some snap => (some snap, history.dropLast, history.dropLast.length)

/-- The mutable server state the claims are about: the SQLite `placements`
table and the `placement_snapshots` undo stack. -/
structure AppState where
  rows : Wall
  snaps : Snapshots
deriving DecidableEq, Repr

inductive AssignResult
  | missingParam
  | assetNotFound
  | ok
deriving DecidableEq, Repr

/-- The `/api/assign_tile` handler (`assign_tile`): reject a missing (falsy)
`tile_id` or `asset_id`, reject an unknown asset, then write
`wall_state[tile_id] = asset_id` over the loaded state and save.  No
snapshot is pushed and the occupancy of `tile_id` is not checked.
`assets` is the list of known asset ids. -/
def assign_tile (tile_id asset_id : String) (assets : List String)
    (s : AppState) : AppState × AssignResult :=
  if tile_id == "" || asset_id == "" then (s, .missingParam)
  else if ! assets.contains asset_id then (s, .assetNotFound)
  else
    let wall_state := load_wall_state s.rows
    ({ s with rows := save_wall_state (dictInsert wall_state tile_id asset_id) },
      .ok)

inductive ClearResult
  | missingParam
  | alreadyEmpty
  | ok
deriving DecidableEq, Repr

/-- The `/api/admin/clear_tile` handler (`admin_clear_tile`), after the PIN
check: reject a falsy `tile_id`; return early with no snapshot when the tile
is not occupied; otherwise push a snapshot of the pre-mutation state, delete
the entry and save. -/
def admin_clear_tile (tile_id : String) (s : AppState) :
    AppState × ClearResult :=
  if tile_id == "" then (s, .missingParam)
  else
    let wall_state := load_wall_state s.rows
    if ! dictMem tile_id wall_state then (s, .alreadyEmpty)
    else
      let (snaps2, _) :=
        push_snapshot ("clear_tile:" ++ tile_id) wall_state s.snaps
      ({ rows := save_wall_state (dictErase wall_state tile_id),
         snaps := snaps2 }, .ok)

/-- The `/api/admin/clear_all_tiles` handler (`admin_clear_all_tiles`), after
the PIN check: no snapshot when the wall is already empty; otherwise push a
snapshot of the pre-mutation state and save the empty mapping. -/
def admin_clear_all_tiles (s : AppState) : AppState × ClearResult :=
  let wall_state := load_wall_state s.rows
  if wall_state.isEmpty then (s, .alreadyEmpty)
  else
    let (snaps2, _) := push_snapshot "clear_grid" wall_state s.snaps
    ({ rows := save_wall_state [], snaps := snaps2 }, .ok)

inductive UndoResult
  | noUndo
  | ok (action : String)
deriving DecidableEq, Repr

/-- The `/api/admin/undo` handler (`admin_undo`), after the PIN check: pop
the newest snapshot; report "No undo available" when there is none;
otherwise restore the popped state via `save_wall_state`. -/
def admin_undo (s : AppState) : AppState × UndoResult :=
  match pop_latest_snapshot s.snaps with
  | (none, _) => (s, .noUndo)
  | (some (action, state), rest) =>
      ({ rows := save_wall_state state, snaps := rest }, .ok action)

inductive MoveResult
  | missingParam
  | sourceEmpty
  | destOccupied
  | ok (history_count : Nat)
deriving DecidableEq, Repr

/-- The `/api/admin/move_tile_asset` handler (`admin_move_tile_asset`), after
the PIN check: reject falsy parameters; fail with no mutation and no
snapshot when the source tile is empty or the destination tile is occupied;
otherwise push a snapshot of the pre-mutation state, copy the asset to the
destination, delete the source entry and save. -/
def admin_move_tile_asset (from_tile_id to_tile_id : String) (s : AppState) :
    AppState × MoveResult :=
  if from_tile_id == "" || to_tile_id == "" then (s, .missingParam)
  else
    let wall_state := load_wall_state s.rows
    if ! dictMem from_tile_id wall_state then (s, .sourceEmpty)
    else if dictMem to_tile_id wall_state then (s, .destOccupied)
    else
      let (snaps2, snapshot_count) :=
        push_snapshot ("move_tile:" ++ from_tile_id ++ "->" ++ to_tile_id)
          wall_state s.snaps
      let asset := (dictLookup from_tile_id wall_state).getD ""
      let wall2 := dictErase (dictInsert wall_state to_tile_id asset) from_tile_id
      ({ rows := save_wall_state wall2, snaps := snaps2 }, .ok snapshot_count)

inductive ShuffleResult
  | unauthorized
  | noArtwork
  | notEnoughTiles
  | ok
deriving DecidableEq, Repr

/-- The `/shuffle` handler (`shuffle_placement`): check the PIN from the
request body; fail when the wall is empty, or when the SVG yields no tiles
or fewer tiles than there are placed artworks.  Otherwise list the placed
asset ids in wall order, shuffle the list of all tile ids
(`random.shuffle`, modelled by the caller-supplied `shuffled_tile_ids`, to
be read as an arbitrary permutation of `all_tile_ids`), keep the first
`len(asset_ids)` of them as destinations, pair them positionally with the
asset ids through a dict comprehension over `zip`, and save the result.
No snapshot is pushed.  `all_tile_ids` stands for the ids of
`_parse_svg_tiles(svg_path)`. -/
def shuffle_placement (pin : String)
    (all_tile_ids shuffled_tile_ids : List String) (s : AppState) :
    AppState × ShuffleResult :=
  if pin != "8375" then (s, .unauthorized)
  else
    let wall_state := load_wall_state s.rows
    if wall_state.isEmpty then (s, .noArtwork)
    else
      let asset_ids := wall_state.map Prod.snd
      if all_tile_ids.isEmpty || all_tile_ids.length < asset_ids.length then
        (s, .notEnoughTiles)
      else
        let destination_tile_ids := shuffled_tile_ids.take asset_ids.length
        let new_state := dictOfPairs (destination_tile_ids.zip asset_ids)
        ({ s with rows := save_wall_state new_state }, .ok)

/-- One of the mutating operations that capture an undo snapshot before
writing (`clear_tile`, `clear_all_tiles`, `move_tile_asset`). -/
inductive MutOp where
  | clearTile (tile_id : String)
  | clearAll
  | moveTile (from_tile_id to_tile_id : String)
deriving DecidableEq, Repr

/-- Run one mutating handler, keeping only the server state. -/
def applyOp (op : MutOp) (s : AppState) : AppState :=
  match op with
  | .clearTile t => (admin_clear_tile t s).1
  | .clearAll => (admin_clear_all_tiles s).1
  | .moveTile a b => (admin_move_tile_asset a b s).1

/-- The handler took its success path, i.e. it actually mutated the wall and
pushed a snapshot. -/
def opOkB (op : MutOp) (s : AppState) : Bool :=
  match op with
  | .clearTile t => (admin_clear_tile t s).2 == ClearResult.ok
  | .clearAll => (admin_clear_all_tiles s).2 == ClearResult.ok
  | .moveTile a b =>
    match (admin_move_tile_asset a b s).2 with
    | .ok _ => true
    | _ => false

/-- Run a list of mutating handlers left to right. -/
def applyOps : List MutOp → AppState → AppState
  | [], s => s
  | op :: rest, s => applyOps rest (applyOp op s)

/-- Every operation of the list takes its success path in the state where it
runs. -/
def allOkB : List MutOp → AppState → Bool
  | [], _ => true
  | op :: rest, s => opOkB op s && allOkB rest (applyOp op s)

/-- Run `/api/admin/undo` n times. -/
def undoN : Nat → AppState → AppState
  | 0, s => s
  | n + 1, s => undoN n (admin_undo s).1

/-- One parsed `<rect>` element of the SVG diagram: the declared width and
height and the derived top-left corner, in diagram (SVG) units.  Dimensions
are modelled as rationals; the arithmetic the claims are about (band
membership, averaging, rescaling) is exact at these magnitudes. -/
structure Rect where
  width : ℚ
  height : ℚ
  svg_left : ℚ
  svg_top : ℚ
deriving DecidableEq, Repr

/-- One entry of the list returned by `_parse_svg_tiles`: the generated tile
id and the size class. -/
structure Tile where
  id : String
  size : String
deriving DecidableEq, Repr

/-- The width classifier nested in `_parse_svg_tiles` (`def classify(w)`):
five half-open design-unit bands, everything else "unknown". -/
def classifyWidth (w : ℚ) : String :=
  if 60 ≤ w ∧ w < 128 then "xs"
  else if 128 ≤ w ∧ w < 213 then "s"
  else if 213 ≤ w ∧ w < 298 then "m"
  else if 298 ≤ w ∧ w < 425 then "lg"
  else if 425 ≤ w ∧ w < 600 then "xlg"
  else "unknown"

/-- The id-prefix table of `_parse_svg_tiles`. -/
def sizeLetter (size : String) : String :=
  if size = "xs" then "X"
  else if size = "s" then "S"
  else if size = "m" then "M"
  else if size = "lg" then "L"
  else if size = "xlg" then "XL"
  else "U"

/-- The id-assignment loop of `_parse_svg_tiles`: one ordinal counter per
size class (the `counters` dict), rectangles visited in traversal order,
"unknown" sizes skipped, and each emitted tile given
`prefix[size] + str(counters[size])` after its class counter is
incremented.  Python's `str` on the counter is `Nat.repr`. -/
def assignIds (counters : String → Nat) : List String → List Tile
  | [] => []
  | size :: rest =>
    if size = "unknown" then assignIds counters rest
    else
      let n := counters size + 1
      { id := sizeLetter size ++ Nat.repr n, size := size } ::
        assignIds (fun c => if c = size then n else counters c) rest

/-- The same id-assignment loop as written in
`grid utilities/repair_tiles.py`, which collects only the ids. -/
def assignIdsOnly (counters : String → Nat) : List String → List String
  | [] => []
  | size :: rest =>
    if size = "unknown" then assignIdsOnly counters rest
    else
      let n := counters size + 1
      (sizeLetter size ++ Nat.repr n) ::
        assignIdsOnly (fun c => if c = size then n else counters c) rest

/-- `xs_candidates` of `_parse_svg_tiles`: the widths of the rectangles
satisfying `40 <= r['width'] <= 90`. -/
def xs_candidates (rects : List Rect) : List ℚ :=
  (rects.filter (fun r => decide (40 ≤ r.width) && decide (r.width ≤ 90))).map
    Rect.width

/-- `_parse_svg_tiles` of `app.py`, from the extracted rectangle list on
(the XML traversal itself is I/O; `rects` is its result, one entry per
`<rect>` in traversal order).  Scale inference: empty result when there is
no xs candidate, otherwise `scale = avg_xs / DESIGN_XS` with
`DESIGN_XS = 85.0`; every width is divided by `scale` and classified, and
ids are assigned per class.  The source also rescales heights and positions
and computes `norm_left` / `norm_top`, but those fields do not enter the
returned tiles and are dropped here. -/
def parse_svg_tiles (rects : List Rect) : List Tile :=
  if rects.isEmpty then []
  else
    let cands := xs_candidates rects
    if cands.isEmpty then []
    else
      let avg_xs : ℚ := cands.sum / (cands.length : ℚ)
      let scale : ℚ := avg_xs / 85
      assignIds (fun _ => 0)
        (rects.map (fun r => classifyWidth (r.width / scale)))

/-- `parse_svg_tiles` of `grid utilities/repair_tiles.py`: the identical
pipeline, returning only the generated tile ids. -/
def repair_parse_svg_tiles (rects : List Rect) : List String :=
  if rects.isEmpty then []
  else
    let cands := xs_candidates rects
    if cands.isEmpty then []
    else
      let avg_xs : ℚ := cands.sum / (cands.length : ℚ)
      let scale : ℚ := avg_xs / 85
      assignIdsOnly (fun _ => 0)
        (rects.map (fun r => classifyWidth (r.width / scale)))

/-- The five usable size classes (everything `classifyWidth` can produce
except "unknown"). -/
def goodSize (size : String) : Bool :=
  size == "xs" || size == "s" || size == "m" || size == "lg" || size == "xlg"

/-!
Decimal representation: facts about `Nat.repr` (the model of Python's
`str` on a counter) needed to prove generated tile ids distinct.
-/

/-- The decimal digit characters of a natural number, most significant
first: the unfolding of `Nat.toDigitsCore 10` (hence of `Nat.repr`) freed
of its fuel argument. -/
def decDigits (n : Nat) : List Char :=
  if n < 10 then [Nat.digitChar n]
  else decDigits (n / 10) ++ [Nat.digitChar (n % 10)]
termination_by n
decreasing_by
  exact Nat.div_lt_self (by omega) (by omega)

/-- The numeric value of a decimal digit character. -/
def charVal (c : Char) : Nat := c.toNat - 48

/-- The value of a digit string, most significant digit first. -/
def evalDigits (ds : List Char) : Nat :=
  ds.foldl (fun a c => a * 10 + charVal c) 0

theorem toDigitsCore_ten (fuel : Nat) :
    ∀ (n : Nat) (ds : List Char), n < fuel →
      Nat.toDigitsCore 10 fuel n ds = decDigits n ++ ds := by
  induction fuel with
  | zero => intro n ds h; omega
  | succ f ih =>
    intro n ds h
    rw [Nat.toDigitsCore]
    by_cases h10 : n < 10
    · have hdiv : n / 10 = 0 := by omega
      have hmod : n % 10 = n := by omega
      simp [hdiv, hmod, decDigits, h10]
    · have hdiv : ¬ (n / 10 = 0) := by omega
      have hlt : n / 10 < f := by omega
      rw [if_neg hdiv]
      rw [ih (n / 10) _ hlt]
      rw [show decDigits n = decDigits (n / 10) ++ [Nat.digitChar (n % 10)] from
        by rw [decDigits, if_neg h10]]
      simp

theorem repr_data_eq_decDigits (n : Nat) : (Nat.repr n).data = decDigits n := by
  show (Nat.toDigits 10 n).asString.data = decDigits n
  rw [Nat.toDigits, toDigitsCore_ten (n + 1) n [] (Nat.lt_succ_self n)]
  simp [List.asString]

theorem digitChar_val (k : Nat) (h : k < 10) :
    charVal (Nat.digitChar k) = k := by
  interval_cases k <;> rfl

theorem digitChar_isDigit (k : Nat) (h : k < 10) :
    (Nat.digitChar k).isDigit = true := by
  interval_cases k <;> rfl

theorem evalDigits_append_singleton (ds : List Char) (c : Char) :
    evalDigits (ds ++ [c]) = evalDigits ds * 10 + charVal c := by
  unfold evalDigits
  rw [List.foldl_append]
  rfl

theorem evalDigits_decDigits (n : Nat) : evalDigits (decDigits n) = n := by
  induction n using Nat.strong_induction_on with
  | _ n ih =>
    rw [decDigits]
    by_cases h : n < 10
    · rw [if_pos h]
      show 0 * 10 + charVal (Nat.digitChar n) = n
      rw [digitChar_val n h]
      omega
    · rw [if_neg h]
      rw [evalDigits_append_singleton]
      have hdivlt : n / 10 < n := Nat.div_lt_self (by omega) (by omega)
      rw [ih (n / 10) hdivlt, digitChar_val (n % 10) (Nat.mod_lt n (by omega))]
      omega

theorem repr_inj (m n : Nat) (h : Nat.repr m = Nat.repr n) : m = n := by
  have hd : (Nat.repr m).data = (Nat.repr n).data := congrArg String.data h
  rw [repr_data_eq_decDigits, repr_data_eq_decDigits] at hd
  have := congrArg evalDigits hd
  rwa [evalDigits_decDigits, evalDigits_decDigits] at this

theorem decDigits_head_isDigit (n : Nat) :
    ∃ c cs, decDigits n = c :: cs ∧ c.isDigit = true := by
  induction n using Nat.strong_induction_on with
  | _ n ih =>
    rw [decDigits]
    by_cases h : n < 10
    · rw [if_pos h]
      exact ⟨Nat.digitChar n, [], rfl, digitChar_isDigit n h⟩
    · rw [if_neg h]
      have hdivlt : n / 10 < n := Nat.div_lt_self (by omega) (by omega)
      obtain ⟨c, cs, hc, hdig⟩ := ih (n / 10) hdivlt
      exact ⟨c, cs ++ [Nat.digitChar (n % 10)], by rw [hc]; rfl, hdig⟩

theorem string_data_append (s t : String) : (s ++ t).data = s.data ++ t.data :=
  rfl

theorem repr_data_inj (m n : Nat) (h : (Nat.repr m).data = (Nat.repr n).data) :
    m = n := by
  rw [repr_data_eq_decDigits, repr_data_eq_decDigits] at h
  have h2 := congrArg evalDigits h
  rwa [evalDigits_decDigits, evalDigits_decDigits] at h2

theorem repr_head_not_L (n : Nat) (l : List Char)
    (h : (Nat.repr n).data = 'L' :: l) : False := by
  obtain ⟨c, cs, hc, hdig⟩ := decDigits_head_isDigit n
  rw [repr_data_eq_decDigits, hc] at h
  injection h with h1 _
  rw [h1] at hdig
  exact absurd hdig (by decide)

theorem sizeLetter_xs : sizeLetter "xs" = "X" := rfl

theorem sizeLetter_s : sizeLetter "s" = "S" := rfl

theorem sizeLetter_m : sizeLetter "m" = "M" := rfl

theorem sizeLetter_lg : sizeLetter "lg" = "L" := rfl

theorem sizeLetter_xlg : sizeLetter "xlg" = "XL" := rfl

theorem dataX : ("X" : String).data = ['X'] := rfl

theorem dataS : ("S" : String).data = ['S'] := rfl

theorem dataM : ("M" : String).data = ['M'] := rfl

theorem dataL : ("L" : String).data = ['L'] := rfl

theorem dataXL : ("XL" : String).data = ['X', 'L'] := rfl

/-- Key distinctness fact: on the five usable size classes, the generated id
`prefix[size] + str(n)` determines both the class and the counter value.
In particular "X" ids never collide with "XL" ids, because the decimal
counter never begins with the letter L. -/
theorem tid_inj (s1 s2 : String) (n1 n2 : Nat) (h1 : goodSize s1 = true)
    (h2 : goodSize s2 = true)
    (h : sizeLetter s1 ++ Nat.repr n1 = sizeLetter s2 ++ Nat.repr n2) :
    s1 = s2 ∧ n1 = n2 := by
  have hd := congrArg String.data h
  rw [string_data_append, string_data_append] at hd
  simp only [goodSize, Bool.or_eq_true, beq_iff_eq] at h1 h2
  rcases h1 with (((rfl | rfl) | rfl) | rfl) | rfl <;>
    rcases h2 with (((rfl | rfl) | rfl) | rfl) | rfl <;>
      simp only [sizeLetter_xs, sizeLetter_s, sizeLetter_m, sizeLetter_lg,
        sizeLetter_xlg, dataX, dataS, dataM, dataL, dataXL,
        List.singleton_append, List.cons_append, List.nil_append,
        List.cons.injEq, true_and] at hd <;>
      first
      | exact ⟨rfl, repr_data_inj _ _ hd⟩
      | (obtain ⟨hh, -⟩ := hd; exact absurd hh (by decide))
      | exact (repr_head_not_L n1 _ hd).elim
      | exact (repr_head_not_L n2 _ hd.symm).elim

theorem classifyWidth_cases (w : ℚ) :
    classifyWidth w = "unknown" ∨ goodSize (classifyWidth w) = true := by
  unfold classifyWidth
  split_ifs <;> simp [goodSize]

theorem assignIds_mem (cnt : String → Nat) (sizes : List String) (t : Tile)
    (hs : ∀ sz ∈ sizes, sz = "unknown" ∨ goodSize sz = true)
    (ht : t ∈ assignIds cnt sizes) :
    goodSize t.size = true ∧
      ∃ n, cnt t.size < n ∧ t.id = sizeLetter t.size ++ Nat.repr n := by
  induction sizes generalizing cnt with
  | nil => simp [assignIds] at ht
  | cons sz rest ih =>
    rw [assignIds] at ht
    by_cases hu : sz = "unknown"
    · rw [if_pos hu] at ht
      exact ih cnt (fun z hz => hs z (List.mem_cons_of_mem _ hz)) ht
    · rw [if_neg hu] at ht
      have hgood : goodSize sz = true := by
        rcases hs sz (List.mem_cons_self _ _) with h | h
        · exact absurd h hu
        · exact h
      rcases List.mem_cons.mp ht with rfl | htl
      · exact ⟨hgood, cnt sz + 1, Nat.lt_succ_self _, rfl⟩
      · obtain ⟨hg, n, hn, hid⟩ :=
          ih _ (fun z hz => hs z (List.mem_cons_of_mem _ hz)) htl
        refine ⟨hg, n, ?_, hid⟩
        by_cases he : t.size = sz
        · rw [he] at hn ⊢
          simp at hn
          omega
        · rwa [if_neg he] at hn

theorem assignIds_id_nodup (cnt : String → Nat) (sizes : List String)
    (hs : ∀ sz ∈ sizes, sz = "unknown" ∨ goodSize sz = true) :
    ((assignIds cnt sizes).map Tile.id).Nodup := by
  induction sizes generalizing cnt with
  | nil => simp [assignIds]
  | cons sz rest ih =>
    rw [assignIds]
    by_cases hu : sz = "unknown"
    · rw [if_pos hu]
      exact ih cnt (fun z hz => hs z (List.mem_cons_of_mem _ hz))
    · rw [if_neg hu]
      have hgood : goodSize sz = true := by
        rcases hs sz (List.mem_cons_self _ _) with h | h
        · exact absurd h hu
        · exact h
      simp only [List.map_cons, List.nodup_cons]
      refine ⟨?_, ih _ (fun z hz => hs z (List.mem_cons_of_mem _ hz))⟩
      intro hmem
      obtain ⟨t, htm, hid⟩ := List.mem_map.mp hmem
      obtain ⟨hg, n, hn, hidt⟩ :=
        assignIds_mem _ rest t (fun z hz => hs z (List.mem_cons_of_mem _ hz)) htm
      rw [hidt] at hid
      obtain ⟨hsz, hnn⟩ := tid_inj t.size sz n (cnt sz + 1) hg hgood hid
      rw [hsz] at hn
      simp at hn
      omega

theorem assignIds_filter_class (cnt : String → Nat) (sizes : List String)
    (c : String) (hc : c ≠ "unknown") :
    ((assignIds cnt sizes).filter (fun t => t.size == c)).map Tile.id =
      (List.range (sizes.countP (fun sz => sz == c))).map
        (fun j => sizeLetter c ++ Nat.repr (cnt c + j + 1)) := by
  induction sizes generalizing cnt with
  | nil => simp [assignIds]
  | cons sz rest ih =>
    rw [assignIds, List.countP_cons]
    by_cases hu : sz = "unknown"
    · rw [if_pos hu]
      have hne : (sz == c) = false := by
        subst hu
        exact beq_eq_false_iff_ne.mpr (fun hcc => hc hcc.symm)
      rw [hne]
      simp only [Bool.false_eq_true, if_false, Nat.add_zero]
      exact ih cnt
    · rw [if_neg hu]
      by_cases he : sz = c
      · subst he
        rw [List.filter_cons_of_pos (by simp)]
        rw [List.map_cons]
        rw [show (List.countP (fun z => z == sz) rest +
            if (sz == sz) = true then 1 else 0) =
            List.countP (fun z => z == sz) rest + 1 by simp]
        rw [List.range_succ_eq_map, List.map_cons, List.map_map]
        congr 1
        rw [ih _]
        apply List.map_congr_left
        intro j _
        simp only [Function.comp_apply, Nat.succ_eq_add_one]
        have harith : cnt sz + 1 + j + 1 = cnt sz + (j + 1) + 1 := by omega
        rw [if_true, harith]
      · have hbeq : (sz == c) = false := beq_eq_false_iff_ne.mpr he
        rw [hbeq]
        rw [List.filter_cons_of_neg (by simpa using hbeq)]
        simp only [Bool.false_eq_true, if_false, Nat.add_zero]
        rw [ih _]
        apply List.map_congr_left
        intro j _
        rw [show (if c = sz then cnt sz + 1 else cnt c) = cnt c from
          if_neg (fun hcc => he hcc.symm)]

theorem assignIdsOnly_eq (cnt : String → Nat) (sizes : List String) :
    assignIdsOnly cnt sizes = (assignIds cnt sizes).map Tile.id := by
  induction sizes generalizing cnt with
  | nil => rfl
  | cons sz rest ih =>
    rw [assignIdsOnly, assignIds]
    by_cases hu : sz = "unknown"
    · rw [if_pos hu, if_pos hu]
      exact ih cnt
    · rw [if_neg hu, if_neg hu]
      simp [ih]

/-!
Facts about the dict model and the SQLite placements round trip.
-/

theorem filter_key_ne_eq_self (w : Wall) (t : String)
    (h : ∀ p ∈ w, p.1 ≠ t) : w.filter (fun p => p.1 != t) = w := by
  apply List.filter_eq_self.mpr
  intro p hp
  simpa [bne_iff_ne] using h p hp

theorem insertOrReplace_fresh (rows : Wall) (t a : String)
    (h : ∀ p ∈ rows, p.1 ≠ t) : insertOrReplace rows t a = rows ++ [(t, a)] := by
  unfold insertOrReplace
  rw [filter_key_ne_eq_self rows t h]

theorem foldl_insertOrReplace_nodup (M : Wall) :
    ∀ acc : Wall, (wallKeys M).Nodup → (∀ p ∈ M, ∀ q ∈ acc, q.1 ≠ p.1) →
      M.foldl (fun rows p => insertOrReplace rows p.1 p.2) acc = acc ++ M := by
  induction M with
  | nil => intro acc _ _; simp
  | cons hd tl ih =>
    intro acc hnd hdisj
    obtain ⟨t, a⟩ := hd
    rw [List.foldl_cons]
    have hfresh : ∀ p ∈ acc, p.1 ≠ t := by
      intro p hp
      exact hdisj (t, a) (List.mem_cons_self _ _) p hp
    rw [insertOrReplace_fresh acc t a hfresh]
    have hkey : (t, a).1 ∉ wallKeys tl ∧ (wallKeys tl).Nodup := by
      simpa [wallKeys] using hnd
    rw [ih (acc ++ [(t, a)]) hkey.2 ?_]
    · simp
    · intro p hp q hq
      rcases List.mem_append.mp hq with hq1 | hq2
      · exact hdisj p (List.mem_cons_of_mem _ hp) q hq1
      · have hqe : q = (t, a) := by simpa using hq2
        subst hqe
        intro hcontra
        exact hkey.1 (by
          simp only [wallKeys]
          exact List.mem_map.mpr ⟨p, hp, hcontra.symm⟩)

theorem save_wall_state_eq_self (M : Wall) (h : (wallKeys M).Nodup) :
    save_wall_state M = M := by
  unfold save_wall_state
  simpa using foldl_insertOrReplace_nodup M [] h (by simp)

theorem load_values_ne (rows : Wall) (p : String × String)
    (hp : p ∈ load_wall_state rows) : p.2 ≠ "" := by
  unfold load_wall_state at hp
  have h2 := (List.mem_filter.mp hp).2
  simpa [bne_iff_ne] using h2

theorem load_mem_subset (rows : Wall) (p : String × String)
    (hp : p ∈ load_wall_state rows) : p ∈ rows :=
  List.mem_of_mem_filter hp

theorem load_eq_self (w : Wall) (h : ∀ p ∈ w, p.2 ≠ "") :
    load_wall_state w = w := by
  apply List.filter_eq_self.mpr
  intro p hp
  simpa [bne_iff_ne] using h p hp

theorem load_idem (rows : Wall) :
    load_wall_state (load_wall_state rows) = load_wall_state rows :=
  load_eq_self _ (fun p hp => load_values_ne _ p hp)

theorem keys_load_nodup (rows : Wall) (h : (wallKeys rows).Nodup) :
    (wallKeys (load_wall_state rows)).Nodup := by
  have hsub : List.Sublist (wallKeys (load_wall_state rows)) (wallKeys rows) :=
    (List.filter_sublist rows).map Prod.fst
  exact h.sublist hsub

theorem load_save_load (rows : Wall) (h : (wallKeys rows).Nodup) :
    load_wall_state (save_wall_state (load_wall_state rows)) =
      load_wall_state rows := by
  rw [save_wall_state_eq_self _ (keys_load_nodup rows h), load_idem]

theorem dictMem_false_iff (t : String) (w : Wall) :
    dictMem t w = false ↔ ∀ p ∈ w, p.1 ≠ t := by
  unfold dictMem
  simp [List.any_eq_false]

theorem dictMem_true_iff (t : String) (w : Wall) :
    dictMem t w = true ↔ ∃ p ∈ w, p.1 = t := by
  unfold dictMem
  simp [List.any_eq_true]

theorem dictLookup_none_of_not_mem (t : String) (w : Wall)
    (h : ∀ p ∈ w, p.1 ≠ t) : dictLookup t w = none := by
  induction w with
  | nil => rfl
  | cons p rest ih =>
    rw [dictLookup]
    rw [if_neg (by simpa using h p (List.mem_cons_self _ _))]
    exact ih (fun q hq => h q (List.mem_cons_of_mem _ hq))

theorem dictLookup_mem (t a : String) (w : Wall)
    (h : dictLookup t w = some a) : (t, a) ∈ w := by
  induction w with
  | nil => exact absurd h (by simp [dictLookup])
  | cons p rest ih =>
    rw [dictLookup] at h
    by_cases hp : p.1 = t
    · rw [if_pos hp] at h
      have h2 : p.2 = a := by injection h
      have hpe : p = (t, a) := Prod.ext hp h2
      rw [← hpe]
      exact List.mem_cons_self _ _
    · rw [if_neg hp] at h
      exact List.mem_cons_of_mem _ (ih h)

theorem dictMem_true_lookup (t : String) (w : Wall) (h : dictMem t w = true) :
    ∃ a, dictLookup t w = some a := by
  induction w with
  | nil => simp [dictMem] at h
  | cons p rest ih =>
    rw [dictLookup]
    by_cases hp : p.1 = t
    · rw [if_pos hp]
      exact ⟨p.2, rfl⟩
    · rw [if_neg hp]
      apply ih
      unfold dictMem at h ⊢
      simpa [List.any_cons, hp] using h

theorem dictLookup_append (t : String) (w1 w2 : Wall) :
    dictLookup t (w1 ++ w2) =
      match dictLookup t w1 with
      | some a => some a
      | none => dictLookup t w2 := by
  induction w1 with
  | nil => simp [dictLookup]
  | cons p rest ih =>
    rw [List.cons_append, dictLookup, dictLookup]
    by_cases hp : p.1 = t
    · rw [if_pos hp, if_pos hp]
    · rw [if_neg hp, if_neg hp]
      exact ih

theorem dictLookup_map_keyfix_self (t a : String) (w : Wall)
    (hm : dictMem t w = true) :
    dictLookup t (w.map (fun p => if p.1 = t then (t, a) else p)) = some a := by
  induction w with
  | nil => simp [dictMem] at hm
  | cons p rest ih =>
    rw [List.map_cons]
    by_cases hp : p.1 = t
    · rw [if_pos hp, dictLookup, if_pos rfl]
    · rw [if_neg hp, dictLookup, if_neg hp]
      apply ih
      have hm2 := (dictMem_true_iff t (p :: rest)).mp hm
      apply (dictMem_true_iff t rest).mpr
      rcases hm2 with ⟨q, hq, hq1⟩
      rcases List.mem_cons.mp hq with rfl | hq2
      · exact absurd hq1 hp
      · exact ⟨q, hq2, hq1⟩

theorem dictLookup_map_keyfix_other (t a u : String) (w : Wall) (h : u ≠ t) :
    dictLookup u (w.map (fun p => if p.1 = t then (t, a) else p)) =
      dictLookup u w := by
  induction w with
  | nil => rfl
  | cons p rest ih =>
    rw [List.map_cons]
    by_cases hp : p.1 = t
    · rw [if_pos hp, dictLookup, dictLookup]
      rw [if_neg (fun hc => h hc.symm),
        if_neg (by rw [hp]; exact fun hc => h hc.symm)]
      exact ih
    · rw [if_neg hp, dictLookup, dictLookup]
      by_cases hq : p.1 = u
      · rw [if_pos hq, if_pos hq]
      · rw [if_neg hq, if_neg hq]
        exact ih

theorem dictLookup_insert_self (w : Wall) (t a : String) :
    dictLookup t (dictInsert w t a) = some a := by
  unfold dictInsert
  by_cases hm : dictMem t w = true
  · rw [if_pos hm]
    exact dictLookup_map_keyfix_self t a w hm
  · rw [if_neg hm]
    have hnone : dictLookup t w = none := by
      apply dictLookup_none_of_not_mem
      exact (dictMem_false_iff t w).mp (by simpa using hm)
    rw [dictLookup_append, hnone]
    simp [dictLookup]

theorem dictLookup_insert_other (w : Wall) (t a u : String) (h : u ≠ t) :
    dictLookup u (dictInsert w t a) = dictLookup u w := by
  unfold dictInsert
  by_cases hm : dictMem t w = true
  · rw [if_pos hm]
    exact dictLookup_map_keyfix_other t a u w h
  · rw [if_neg hm, dictLookup_append]
    cases hcase : dictLookup u w with
    | some b => rfl
    | none =>
      simp only [dictLookup]
      rw [if_neg (fun hc => h hc.symm)]

theorem dictLookup_erase_self (w : Wall) (t : String) :
    dictLookup t (dictErase w t) = none := by
  apply dictLookup_none_of_not_mem
  intro p hp
  have h2 := (List.mem_filter.mp hp).2
  simpa [bne_iff_ne] using h2

theorem dictLookup_erase_other (w : Wall) (t u : String) (h : u ≠ t) :
    dictLookup u (dictErase w t) = dictLookup u w := by
  induction w with
  | nil => rfl
  | cons p rest ih =>
    unfold dictErase
    rw [List.filter_cons]
    by_cases hp : p.1 = t
    · rw [if_neg (by simp [bne_iff_ne, hp])]
      rw [dictLookup, if_neg (by rw [hp]; exact fun hc => h hc.symm)]
      exact ih
    · rw [if_pos (by simpa [bne_iff_ne] using hp)]
      rw [dictLookup, dictLookup]
      by_cases hq : p.1 = u
      · rw [if_pos hq, if_pos hq]
      · rw [if_neg hq, if_neg hq]
        exact ih

theorem wallKeys_dictInsert_mem (w : Wall) (t a : String)
    (hm : dictMem t w = true) :
    wallKeys (dictInsert w t a) = wallKeys w := by
  unfold dictInsert
  rw [if_pos hm]
  unfold wallKeys
  rw [List.map_map]
  apply List.map_congr_left
  intro p _
  by_cases hp : p.1 = t
  · simp [hp]
  · simp [hp]

theorem wallKeys_dictInsert_not_mem (w : Wall) (t a : String)
    (hm : dictMem t w = false) :
    wallKeys (dictInsert w t a) = wallKeys w ++ [t] := by
  unfold dictInsert
  rw [if_neg (by simp [hm])]
  unfold wallKeys
  simp

theorem wallKeys_dictInsert_nodup (w : Wall) (t a : String)
    (h : (wallKeys w).Nodup) : (wallKeys (dictInsert w t a)).Nodup := by
  by_cases hm : dictMem t w = true
  · rwa [wallKeys_dictInsert_mem w t a hm]
  · rw [wallKeys_dictInsert_not_mem w t a (by simpa using hm)]
    have hnot : t ∉ wallKeys w := by
      intro hmem
      obtain ⟨p, hp, hp1⟩ := List.mem_map.mp hmem
      exact absurd ((dictMem_true_iff t w).mpr ⟨p, hp, hp1⟩) (by simpa using hm)
    simp [List.nodup_append, h, hnot]

theorem wallKeys_dictErase_nodup (w : Wall) (t : String)
    (h : (wallKeys w).Nodup) : (wallKeys (dictErase w t)).Nodup := by
  have hsub : List.Sublist (wallKeys (dictErase w t)) (wallKeys w) :=
    (List.filter_sublist w).map Prod.fst
  exact h.sublist hsub

theorem dictInsert_entries (w : Wall) (t a : String) (p : String × String)
    (hp : p ∈ dictInsert w t a) : p ∈ w ∨ p = (t, a) := by
  unfold dictInsert at hp
  by_cases hm : dictMem t w = true
  · rw [if_pos hm] at hp
    obtain ⟨q, hq, hqe⟩ := List.mem_map.mp hp
    by_cases hq1 : q.1 = t
    · rw [if_pos hq1] at hqe
      right
      exact hqe.symm
    · rw [if_neg hq1] at hqe
      left
      rw [← hqe]
      exact hq
  · rw [if_neg hm] at hp
    rcases List.mem_append.mp hp with h1 | h2
    · exact Or.inl h1
    · exact Or.inr (by simpa using h2)

theorem dictErase_entries (w : Wall) (t : String) (p : String × String)
    (hp : p ∈ dictErase w t) : p ∈ w :=
  List.mem_of_mem_filter hp

theorem undoN_succ_last (n : Nat) (s : AppState) :
    undoN (n + 1) s = (admin_undo (undoN n s)).1 := by
  induction n generalizing s with
  | zero => rfl
  | succ m ih =>
    rw [undoN]
    rw [ih ((admin_undo s).1)]
    rfl

/-- Every successful snapshot-capturing mutation produces a state whose undo
stack has the pre-mutation occupancy on top and whose rows were written
through `save_wall_state`. -/
theorem opOk_shape (op : MutOp) (s : AppState) (h : opOkB op s = true) :
    ∃ a w, applyOp op s =
      ⟨save_wall_state w, (a, load_wall_state s.rows) :: s.snaps⟩ := by
  cases op with
  | clearTile t =>
    simp only [opOkB] at h
    simp only [applyOp]
    unfold admin_clear_tile
    unfold admin_clear_tile at h
    by_cases ht : t == ""
    · rw [if_pos ht] at h
      exact absurd h (by simp)
    · rw [if_neg ht] at h ⊢
      by_cases hm : dictMem t (load_wall_state s.rows) = true
      · rw [if_neg (by simp [hm])] at h ⊢
        exact ⟨"clear_tile:" ++ t, dictErase (load_wall_state s.rows) t, rfl⟩
      · rw [if_pos (by simp [Bool.not_eq_true] at hm ⊢; exact hm)] at h
        exact absurd h (by simp)
  | clearAll =>
    simp only [opOkB] at h
    simp only [applyOp]
    unfold admin_clear_all_tiles
    unfold admin_clear_all_tiles at h
    by_cases hm : (load_wall_state s.rows).isEmpty
    · rw [if_pos hm] at h
      exact absurd h (by simp)
    · rw [if_neg hm] at h ⊢
      exact ⟨"clear_grid", [], rfl⟩
  | moveTile a b =>
    simp only [opOkB] at h
    simp only [applyOp]
    unfold admin_move_tile_asset
    unfold admin_move_tile_asset at h
    by_cases hab : a == "" || b == ""
    · rw [if_pos hab] at h
      exact absurd h (by simp)
    · rw [if_neg hab] at h ⊢
      by_cases hm : dictMem a (load_wall_state s.rows) = true
      · rw [if_neg (by simp [hm])] at h ⊢
        by_cases hm2 : dictMem b (load_wall_state s.rows) = true
        · rw [if_pos hm2] at h
          exact absurd h (by simp)
        · rw [if_neg hm2] at h ⊢
          refine ⟨"move_tile:" ++ a ++ "->" ++ b, _, rfl⟩
      · rw [if_pos (by simp [Bool.not_eq_true] at hm ⊢; exact hm)] at h
        exact absurd h (by simp)

/-- Core round trip: a non-empty run of successful snapshot-capturing
mutations followed by the same number of undos restores the original wall
rows (rewritten through `save_wall_state`) and the original undo stack. -/
theorem undo_round_trip (ops : List MutOp) :
    ∀ s : AppState, ops ≠ [] → allOkB ops s = true →
      undoN ops.length (applyOps ops s) =
        ⟨save_wall_state (load_wall_state s.rows), s.snaps⟩ := by
  induction ops with
  | nil => intro s hne _; exact absurd rfl hne
  | cons op rest ih =>
    intro s _ hok
    rw [allOkB, Bool.and_eq_true] at hok
    obtain ⟨a, w, hshape⟩ := opOk_shape op s hok.1
    rw [applyOps]
    cases hrest : rest with
    | nil =>
      subst hrest
      rw [applyOps]
      rw [List.length_cons, List.length_nil]
      rw [undoN, undoN]
      rw [hshape]
      rfl
    | cons op2 rest2 =>
      rw [← hrest]
      have hne2 : rest ≠ [] := by rw [hrest]; exact List.cons_ne_nil _ _
      rw [List.length_cons, undoN_succ_last]
      rw [ih (applyOp op s) hne2 hok.2]
      rw [hshape]
      rfl

theorem dictInsert_fresh (w : Wall) (t a : String)
    (h : ∀ p ∈ w, p.1 ≠ t) : dictInsert w t a = w ++ [(t, a)] := by
  unfold dictInsert
  rw [if_neg (by simp [(dictMem_false_iff t w).mpr h])]

theorem foldl_dictInsert_nodup (pairs : Wall) :
    ∀ acc : Wall, (pairs.map Prod.fst).Nodup →
      (∀ p ∈ pairs, ∀ q ∈ acc, q.1 ≠ p.1) →
      pairs.foldl (fun d p => dictInsert d p.1 p.2) acc = acc ++ pairs := by
  induction pairs with
  | nil => intro acc _ _; simp
  | cons hd tl ih =>
    intro acc hnd hdisj
    obtain ⟨t, a⟩ := hd
    rw [List.foldl_cons]
    rw [dictInsert_fresh acc t a
      (fun q hq => hdisj (t, a) (List.mem_cons_self _ _) q hq)]
    have hkey : t ∉ tl.map Prod.fst ∧ (tl.map Prod.fst).Nodup := by
      simpa using hnd
    rw [ih (acc ++ [(t, a)]) hkey.2 ?_]
    · simp
    · intro p hp q hq
      rcases List.mem_append.mp hq with hq1 | hq2
      · exact hdisj p (List.mem_cons_of_mem _ hp) q hq1
      · have hqe : q = (t, a) := by simpa using hq2
        subst hqe
        intro hcontra
        exact hkey.1 (List.mem_map.mpr ⟨p, hp, hcontra.symm⟩)

theorem dictOfPairs_eq_self (pairs : Wall) (h : (pairs.map Prod.fst).Nodup) :
    dictOfPairs pairs = pairs := by
  unfold dictOfPairs
  simpa using foldl_dictInsert_nodup pairs [] h (by simp)

/-- Shape of the success path of the shuffle handler. -/
theorem shuffle_ok_shape (s : AppState) (ids perm : List String)
    (hne : load_wall_state s.rows ≠ [])
    (hle : (load_wall_state s.rows).length ≤ ids.length) :
    shuffle_placement "8375" ids perm s
      = ({ s with rows := save_wall_state (dictOfPairs
            ((perm.take ((load_wall_state s.rows).map Prod.snd).length).zip
              ((load_wall_state s.rows).map Prod.snd))) }, .ok) := by
  unfold shuffle_placement
  rw [if_neg (by decide)]
  rw [if_neg (by simp [List.isEmpty_iff, hne])]
  rw [if_neg ?_]
  have hlen : ((load_wall_state s.rows).map Prod.snd).length
      = (load_wall_state s.rows).length := List.length_map _ _
  have hids : ids ≠ [] := by
    intro hc
    subst hc
    simp at hle
    exact hne hle
  simp only [Bool.or_eq_true, not_or]
  constructor
  · simp [List.isEmpty_iff, hids]
  · simp only [decide_eq_true_eq, not_lt]
    rw [hlen]
    exact hle

theorem xs_candidates_nil_of_none (rects : List Rect)
    (h : ∀ r ∈ rects, ¬ (40 ≤ r.width ∧ r.width ≤ 90)) :
    xs_candidates rects = [] := by
  unfold xs_candidates
  have hfil : rects.filter
      (fun r => decide (40 ≤ r.width) && decide (r.width ≤ 90)) = [] := by
    rw [List.filter_eq_nil_iff]
    intro r hr
    simp only [Bool.and_eq_true, decide_eq_true_eq, not_and]
    intro h1 h2
    exact h r hr ⟨h1, h2⟩
  rw [hfil]
  rfl

theorem parse_svg_tiles_of_no_candidate (rects : List Rect)
    (hc : xs_candidates rects = []) : parse_svg_tiles rects = [] := by
  unfold parse_svg_tiles
  dsimp only
  by_cases hre : rects.isEmpty
  · rw [if_pos hre]
  · rw [if_neg hre]
    rw [if_pos (by simp [hc])]

theorem parse_svg_tiles_nonempty (rects : List Rect)
    (hcne : xs_candidates rects ≠ []) :
    parse_svg_tiles rects = assignIds (fun _ => 0)
      (rects.map (fun r => classifyWidth (r.width /
        ((xs_candidates rects).sum / ((xs_candidates rects).length : ℚ)
          / 85)))) := by
  have hre : rects ≠ [] := by
    intro hcr
    subst hcr
    exact hcne rfl
  unfold parse_svg_tiles
  dsimp only
  rw [if_neg (by simp [List.isEmpty_iff, hre])]
  rw [if_neg (by simp [List.isEmpty_iff, hcne])]

theorem repair_parse_eq_map_id (rects : List Rect) :
    repair_parse_svg_tiles rects = (parse_svg_tiles rects).map Tile.id := by
  unfold repair_parse_svg_tiles parse_svg_tiles
  dsimp only
  by_cases hre : rects.isEmpty
  · rw [if_pos hre, if_pos hre]
    rfl
  · rw [if_neg hre, if_neg hre]
    by_cases hce : (xs_candidates rects).isEmpty
    · rw [if_pos hce, if_pos hce]
      rfl
    · rw [if_neg hce, if_neg hce]
      exact assignIdsOnly_eq _ _

theorem classified_sizes_wf (rects : List Rect) (q : ℚ) :
    ∀ sz ∈ rects.map (fun r => classifyWidth (r.width / q)),
      sz = "unknown" ∨ goodSize sz = true := by
  intro sz hsz
  obtain ⟨r, -, rfl⟩ := List.mem_map.mp hsz
  exact classifyWidth_cases _

/-!
Claim theorems.
-/

/-- Claim C1, counterexample: six consecutive `push_snapshot` calls starting
from an empty `placement_snapshots` stack leave a stack of depth 6, above
the only configured retention bound `MAX_HISTORY_DEPTH = 5`, and the oldest
snapshot (action "a") is still retained — nothing is ever evicted from this
stack. -/
theorem C1_counterexample :
    (((push_snapshot "f" [] ((push_snapshot "e" [] ((push_snapshot "d" []
        ((push_snapshot "c" [] ((push_snapshot "b" []
          ((push_snapshot "a" [] []).1)).1)).1)).1)).1)).1).length = 6) ∧
    MAX_HISTORY_DEPTH = 5 ∧
    ("a", ([] : Wall)) ∈
      ((push_snapshot "f" [] ((push_snapshot "e" [] ((push_snapshot "d" []
        ((push_snapshot "c" [] ((push_snapshot "b" []
          ((push_snapshot "a" [] []).1)).1)).1)).1)).1)).1) := by
  decide

/-- Claim C1 (amended): the SQLite `placement_snapshots` undo stack is
unbounded — every push grows it by exactly one and nothing is evicted —
while the legacy JSON history stack is the bounded one: its depth after a
push is `min (old depth + 1) MAX_HISTORY_DEPTH` (with
`MAX_HISTORY_DEPTH = 5`, not "on the order of tens"), and a push onto a
full history drops the oldest snapshot first. -/
theorem C1_stack_bounds :
    (∀ (action : String) (state : Wall) (snaps : Snapshots),
        ((push_snapshot action state snaps).1).length = snaps.length + 1) ∧
    (∀ (history : List Wall) (current_state : Wall),
        ((push_history_snapshot history current_state).1).length
          = min (history.length + 1) MAX_HISTORY_DEPTH) ∧
    (∀ (history : List Wall) (current_state : Wall),
        history.length = MAX_HISTORY_DEPTH →
        (push_history_snapshot history current_state).1
          = history.tail ++ [current_state]) := by
  refine ⟨?_, ?_, ?_⟩
  · intro action state snaps
    simp [push_snapshot]
  · intro history current_state
    unfold push_history_snapshot
    dsimp only
    split_ifs with h
    · simp only [List.length_drop, List.length_append, List.length_singleton]
      simp only [List.length_append, List.length_singleton] at h
      unfold MAX_HISTORY_DEPTH at h ⊢
      omega
    · simp only [List.length_append, List.length_singleton]
      simp only [List.length_append, List.length_singleton] at h
      unfold MAX_HISTORY_DEPTH at h ⊢
      omega
  · intro history current_state hlen
    unfold push_history_snapshot
    dsimp only
    rw [if_pos (by simp [hlen])]
    have h1 : (history ++ [current_state]).length - MAX_HISTORY_DEPTH = 1 := by
      simp [hlen]
    rw [h1]
    rw [List.drop_append_of_le_length (by rw [hlen]; unfold MAX_HISTORY_DEPTH; omega)]
    rw [List.drop_one]

/-- Claim C1 witness for the eviction clause: pushing onto a full history of
five snapshots keeps depth five and drops the oldest. -/
theorem C1_witness :
    (push_history_snapshot [[("T1", "a")], [], [], [], []] []).1
      = [[], [], [], [], ([] : Wall)] :=
  C1_stack_bounds.2.2 [[("T1", "a")], [], [], [], []] [] (by decide)

/-- Claim C2, counterexample: `assign_tile` and `shuffle_placement` both
mutate the occupancy mapping while leaving the snapshot stack empty — no
snapshot is pushed, and there is no shuffle-specific stack at all. -/
theorem C2_counterexample :
    (assign_tile "X2" "b" ["b"] ⟨[("X1", "a")], []⟩
        = (⟨[("X1", "a"), ("X2", "b")], []⟩, AssignResult.ok)) ∧
    (shuffle_placement "8375" ["X1", "X2"] ["X2", "X1"] ⟨[("X1", "a")], []⟩
        = (⟨[("X2", "a")], []⟩, ShuffleResult.ok)) := by
  decide

/-- Claim C2 (amended): `clear_tile`, `clear_all_tiles` and
`move_tile_asset` push a full snapshot of the pre-mutation occupancy onto
the single snapshot stack before writing through `save_wall_state`, but
`assign_tile` and `shuffle_placement` mutate without pushing any snapshot
(and no shuffle-specific stack exists). -/
theorem C2_snapshot_discipline (s : AppState) (tile fromT toT : String)
    (tile2 asset2 pin : String) (assets ids perm : List String)
    (ht : tile ≠ "")
    (hocc : dictMem tile (load_wall_state s.rows) = true)
    (hf : fromT ≠ "") (ht2 : toT ≠ "")
    (hfo : dictMem fromT (load_wall_state s.rows) = true)
    (hto : dictMem toT (load_wall_state s.rows) = false) :
    (admin_clear_tile tile s).1.snaps
        = ("clear_tile:" ++ tile, load_wall_state s.rows) :: s.snaps ∧
    (admin_clear_all_tiles s).1.snaps
        = ("clear_grid", load_wall_state s.rows) :: s.snaps ∧
    (admin_move_tile_asset fromT toT s).1.snaps
        = ("move_tile:" ++ fromT ++ "->" ++ toT, load_wall_state s.rows)
            :: s.snaps ∧
    (assign_tile tile2 asset2 assets s).1.snaps = s.snaps ∧
    (shuffle_placement pin ids perm s).1.snaps = s.snaps := by
  refine ⟨?_, ?_, ?_, ?_, ?_⟩
  · unfold admin_clear_tile
    rw [if_neg (by simp [ht])]
    rw [if_neg (by simp [hocc])]
    rfl
  · unfold admin_clear_all_tiles
    obtain ⟨p, hp, -⟩ := (dictMem_true_iff tile (load_wall_state s.rows)).mp hocc
    rw [if_neg (by simp [List.isEmpty_iff]; exact List.ne_nil_of_mem hp)]
    rfl
  · unfold admin_move_tile_asset
    rw [if_neg (by simp [hf, ht2])]
    rw [if_neg (by simp [hfo])]
    rw [if_neg (by simp [hto])]
    rfl
  · unfold assign_tile
    dsimp only
    split_ifs <;> rfl
  · unfold shuffle_placement
    dsimp only
    split_ifs <;> rfl

/-- Claim C2 witness: a state where all five conclusions are discharged at a
concrete input. -/
theorem C2_witness :
    (admin_clear_tile "X1" ⟨[("X1", "a")], []⟩).1.snaps
        = [("clear_tile:X1", [("X1", "a")])] ∧
    (assign_tile "X2" "b" ["b"] ⟨[("X1", "a")], []⟩).1.snaps = [] := by
  have h := C2_snapshot_discipline ⟨[("X1", "a")], []⟩ "X1" "X1" "X2"
    "X2" "b" "p" ["b"] [] [] (by decide) (by decide) (by decide) (by decide)
    (by decide) (by decide)
  exact ⟨h.1, h.2.2.2.1⟩

/-- Claim C3, counterexample: the round trip drops entries whose asset id is
the empty string — `replace_all` stores them but `get_all` filters them
out, so `get_all` after `replace_all` is not always the identity. -/
theorem C3_counterexample :
    load_wall_state (save_wall_state [("X1", "")]) = [] ∧
    ([("X1", "")] : Wall) ≠ [] := by
  decide

/-- Claim C3 (amended): for every occupancy mapping with distinct tile keys
whose asset ids are all non-empty, `load_wall_state` after
`save_wall_state` returns exactly the mapping. -/
theorem C3_round_trip (M : Wall) (h1 : (wallKeys M).Nodup)
    (h2 : ∀ p ∈ M, p.2 ≠ "") :
    load_wall_state (save_wall_state M) = M := by
  rw [save_wall_state_eq_self M h1]
  exact load_eq_self M h2

/-- Claim C3 witness: the round trip at a concrete two-tile mapping. -/
theorem C3_witness :
    load_wall_state (save_wall_state [("X1", "a"), ("X2", "b")])
      = [("X1", "a"), ("X2", "b")] :=
  C3_round_trip [("X1", "a"), ("X2", "b")] (by decide) (by decide)

/-- Claim C4: undo round trip.  Any non-empty sequence of mutating
operations that each capture an undo snapshot (take their success path),
followed by the same number of undos, restores the observable occupancy and
the original undo-stack depth; and concretely, from occupancy
`[("X1", "a")]`, `clear_tile X1` pushes one snapshot and empties the wall,
and a single undo restores the original state with undo depth 0. -/
theorem C4_undo_round_trip (s : AppState) (ops : List MutOp)
    (hne : ops ≠ []) (hok : allOkB ops s = true)
    (hn : (wallKeys s.rows).Nodup) :
    load_wall_state ((undoN ops.length (applyOps ops s)).rows)
        = load_wall_state s.rows ∧
    (undoN ops.length (applyOps ops s)).snaps = s.snaps ∧
    (admin_clear_tile "X1" ⟨[("X1", "a")], []⟩).1
        = ⟨[], [("clear_tile:X1", [("X1", "a")])]⟩ ∧
    (admin_undo (admin_clear_tile "X1" ⟨[("X1", "a")], []⟩).1).1
        = ⟨[("X1", "a")], []⟩ := by
  have hrt := undo_round_trip ops s hne hok
  refine ⟨?_, ?_, by decide, by decide⟩
  · rw [hrt]
    exact load_save_load s.rows hn
  · rw [hrt]

/-- Claim C4 witness: the round trip instantiated at the concrete
clear-then-undo scenario. -/
theorem C4_witness :
    load_wall_state ((undoN 1 (applyOps [MutOp.clearTile "X1"]
        ⟨[("X1", "a")], []⟩)).rows) = load_wall_state [("X1", "a")] ∧
    (undoN 1 (applyOps [MutOp.clearTile "X1"] ⟨[("X1", "a")], []⟩)).snaps
        = [] := by
  have h := C4_undo_round_trip ⟨[("X1", "a")], []⟩ [MutOp.clearTile "X1"]
    (by decide) (by decide) (by decide)
  exact ⟨h.1, h.2.1⟩

/-- Claim C5: `move_tile_asset` fails with the state entirely unchanged and
no snapshot pushed when the source tile is unoccupied or the destination
tile is occupied; otherwise it pushes a snapshot of the pre-mutation
occupancy, moves the asset from the source to the destination and leaves
every other tile unchanged in the committed mapping. -/
theorem C5_move (s : AppState) (fromT toT : String)
    (hn : (wallKeys s.rows).Nodup) (hf : fromT ≠ "") (ht : toT ≠ "") :
    (dictMem fromT (load_wall_state s.rows) = false →
      admin_move_tile_asset fromT toT s = (s, MoveResult.sourceEmpty)) ∧
    (dictMem fromT (load_wall_state s.rows) = true →
      dictMem toT (load_wall_state s.rows) = true →
      admin_move_tile_asset fromT toT s = (s, MoveResult.destOccupied)) ∧
    (dictMem fromT (load_wall_state s.rows) = true →
      dictMem toT (load_wall_state s.rows) = false →
      (admin_move_tile_asset fromT toT s).2
          = MoveResult.ok (s.snaps.length + 1) ∧
      (admin_move_tile_asset fromT toT s).1.snaps
          = ("move_tile:" ++ fromT ++ "->" ++ toT, load_wall_state s.rows)
              :: s.snaps ∧
      dictLookup toT
          (load_wall_state (admin_move_tile_asset fromT toT s).1.rows)
        = dictLookup fromT (load_wall_state s.rows) ∧
      dictLookup fromT
          (load_wall_state (admin_move_tile_asset fromT toT s).1.rows)
        = none ∧
      ∀ u, u ≠ fromT → u ≠ toT →
        dictLookup u
            (load_wall_state (admin_move_tile_asset fromT toT s).1.rows)
          = dictLookup u (load_wall_state s.rows)) := by
  refine ⟨?_, ?_, ?_⟩
  · intro hfo
    unfold admin_move_tile_asset
    rw [if_neg (by simp [hf, ht])]
    rw [if_pos (by simp [hfo])]
  · intro hfo hto
    unfold admin_move_tile_asset
    rw [if_neg (by simp [hf, ht])]
    rw [if_neg (by simp [hfo])]
    rw [if_pos hto]
  · intro hfo hto
    obtain ⟨a0, ha0⟩ := dictMem_true_lookup fromT _ hfo
    have hfromto : fromT ≠ toT := by
      intro hc
      rw [hc] at hfo
      rw [hfo] at hto
      exact absurd hto (by simp)
    have ha0ne : a0 ≠ "" :=
      load_values_ne s.rows (fromT, a0) (dictLookup_mem _ _ _ ha0)
    set wall := load_wall_state s.rows with hwall
    set aval := (dictLookup fromT wall).getD "" with haval
    set W2 := dictErase (dictInsert wall toT aval) fromT with hW2
    have hshape : admin_move_tile_asset fromT toT s
        = ({ rows := save_wall_state W2,
             snaps := ("move_tile:" ++ fromT ++ "->" ++ toT, wall)
               :: s.snaps },
           MoveResult.ok (s.snaps.length + 1)) := by
      unfold admin_move_tile_asset
      rw [if_neg (by simp [hf, ht])]
      rw [if_neg (by simp [hfo])]
      rw [if_neg (by simp [hto])]
      rfl
    have hload : load_wall_state (save_wall_state W2) = W2 := by
      have hkeys : (wallKeys W2).Nodup :=
        wallKeys_dictErase_nodup _ _
          (wallKeys_dictInsert_nodup _ _ _ (keys_load_nodup s.rows hn))
      have hvals : ∀ p ∈ W2, p.2 ≠ "" := by
        intro p hp
        rcases dictInsert_entries _ _ _ p (dictErase_entries _ _ p hp)
          with h1 | h2
        · exact load_values_ne s.rows p h1
        · rw [h2]
          simp only [haval, ha0, Option.getD_some]
          exact ha0ne
      rw [save_wall_state_eq_self W2 hkeys]
      exact load_eq_self W2 hvals
    refine ⟨?_, ?_, ?_, ?_, ?_⟩
    · rw [hshape]
    · rw [hshape]
    · rw [hshape]
      simp only
      rw [hload]
      rw [hW2, dictLookup_erase_other _ _ _ (fun hc => hfromto hc.symm)]
      rw [dictLookup_insert_self]
      rw [haval, ha0]
      simp
    · rw [hshape]
      simp only
      rw [hload, hW2]
      exact dictLookup_erase_self _ _
    · intro u huf hut
      rw [hshape]
      simp only
      rw [hload, hW2]
      rw [dictLookup_erase_other _ _ _ huf]
      rw [dictLookup_insert_other _ _ _ _ hut]

/-- Claim C5 witness: both failure modes and the success mode at concrete
inputs. -/
theorem C5_witness :
    admin_move_tile_asset "X3" "X2" ⟨[("X1", "a")], []⟩
        = (⟨[("X1", "a")], []⟩, MoveResult.sourceEmpty) ∧
    admin_move_tile_asset "X1" "X1" ⟨[("X1", "a")], []⟩
        = (⟨[("X1", "a")], []⟩, MoveResult.destOccupied) ∧
    (admin_move_tile_asset "X1" "X2" ⟨[("X1", "a")], []⟩).2
        = MoveResult.ok 1 := by
  refine ⟨?_, ?_, ?_⟩
  · exact (C5_move ⟨[("X1", "a")], []⟩ "X3" "X2" (by decide) (by decide)
      (by decide)).1 (by decide)
  · exact (C5_move ⟨[("X1", "a")], []⟩ "X1" "X1" (by decide) (by decide)
      (by decide)).2.1 (by decide) (by decide)
  · exact ((C5_move ⟨[("X1", "a")], []⟩ "X1" "X2" (by decide) (by decide)
      (by decide)).2.2 (by decide) (by decide)).1

/-- Claim C6: clearing an already-empty tile is a complete no-op — the state
(including the undo stack) is unchanged and no snapshot is pushed — while
clearing an occupied tile pushes exactly one snapshot (undo depth grows by
exactly one; the stack has no cap, so "up to the cap" never bites), removes
the entry and commits the rest unchanged. -/
theorem C6_clear (s : AppState) (tile : String)
    (hn : (wallKeys s.rows).Nodup) (ht : tile ≠ "") :
    (dictMem tile (load_wall_state s.rows) = false →
      admin_clear_tile tile s = (s, ClearResult.alreadyEmpty)) ∧
    (dictMem tile (load_wall_state s.rows) = true →
      (admin_clear_tile tile s).2 = ClearResult.ok ∧
      (admin_clear_tile tile s).1.snaps.length = s.snaps.length + 1 ∧
      (admin_clear_tile tile s).1.snaps
        = ("clear_tile:" ++ tile, load_wall_state s.rows) :: s.snaps ∧
      load_wall_state (admin_clear_tile tile s).1.rows
        = dictErase (load_wall_state s.rows) tile) := by
  refine ⟨?_, ?_⟩
  · intro hm
    unfold admin_clear_tile
    rw [if_neg (by simp [ht])]
    rw [if_pos (by simp [hm])]
  · intro hm
    have hshape : admin_clear_tile tile s
        = ({ rows := save_wall_state (dictErase (load_wall_state s.rows) tile),
             snaps := ("clear_tile:" ++ tile, load_wall_state s.rows)
               :: s.snaps }, ClearResult.ok) := by
      unfold admin_clear_tile
      rw [if_neg (by simp [ht])]
      rw [if_neg (by simp [hm])]
      rfl
    have hload : load_wall_state (save_wall_state
        (dictErase (load_wall_state s.rows) tile))
        = dictErase (load_wall_state s.rows) tile := by
      have hkeys : (wallKeys (dictErase (load_wall_state s.rows) tile)).Nodup :=
        wallKeys_dictErase_nodup _ _ (keys_load_nodup s.rows hn)
      have hvals : ∀ p ∈ dictErase (load_wall_state s.rows) tile, p.2 ≠ "" :=
        fun p hp => load_values_ne s.rows p (dictErase_entries _ _ p hp)
      rw [save_wall_state_eq_self _ hkeys]
      exact load_eq_self _ hvals
    rw [hshape]
    exact ⟨rfl, rfl, rfl, hload⟩

/-- Claim C6 witness: both branches at concrete inputs. -/
theorem C6_witness :
    admin_clear_tile "X2" ⟨[("X1", "a")], []⟩
        = (⟨[("X1", "a")], []⟩, ClearResult.alreadyEmpty) ∧
    (admin_clear_tile "X1" ⟨[("X1", "a")], []⟩).1.snaps.length = 1 := by
  refine ⟨?_, ?_⟩
  · exact (C6_clear ⟨[("X1", "a")], []⟩ "X2" (by decide) (by decide)).1
      (by decide)
  · exact ((C6_clear ⟨[("X1", "a")], []⟩ "X1" (by decide) (by decide)).2
      (by decide)).2.1

/-- Claim C10: `assign_tile` with a known asset succeeds even on an occupied
tile — it silently overwrites the previous asset, pushes no snapshot, leaves
all other tiles unchanged, and nothing prevents the same asset id from
sitting on two tiles at once (concrete final conjunct). -/
theorem C10_assign_overwrites (s : AppState) (tile asset : String)
    (assets : List String) (hn : (wallKeys s.rows).Nodup) (ht : tile ≠ "")
    (ha : asset ≠ "") (hmem : assets.contains asset = true)
    (hocc : dictMem tile (load_wall_state s.rows) = true) :
    (assign_tile tile asset assets s).2 = AssignResult.ok ∧
    (assign_tile tile asset assets s).1.snaps = s.snaps ∧
    dictLookup tile
        (load_wall_state (assign_tile tile asset assets s).1.rows)
      = some asset ∧
    (∀ u, u ≠ tile →
      dictLookup u
          (load_wall_state (assign_tile tile asset assets s).1.rows)
        = dictLookup u (load_wall_state s.rows)) ∧
    assign_tile "X2" "a" ["a"] ⟨[("X1", "a")], []⟩
      = (⟨[("X1", "a"), ("X2", "a")], []⟩, AssignResult.ok) := by
  set W2 := dictInsert (load_wall_state s.rows) tile asset with hW2
  have hshape : assign_tile tile asset assets s
      = ({ s with rows := save_wall_state W2 }, AssignResult.ok) := by
    unfold assign_tile
    rw [if_neg (by simp [ht, ha])]
    rw [if_neg (by simp at hmem ⊢; exact hmem)]
  have hload : load_wall_state (save_wall_state W2) = W2 := by
    have hkeys : (wallKeys W2).Nodup :=
      wallKeys_dictInsert_nodup _ _ _ (keys_load_nodup s.rows hn)
    have hvals : ∀ p ∈ W2, p.2 ≠ "" := by
      intro p hp
      rcases dictInsert_entries _ _ _ p hp with h1 | h2
      · exact load_values_ne s.rows p h1
      · rw [h2]
        exact ha
    rw [save_wall_state_eq_self _ hkeys]
    exact load_eq_self _ hvals
  refine ⟨?_, ?_, ?_, ?_, by decide⟩
  · rw [hshape]
  · rw [hshape]
  · rw [hshape]
    simp only
    rw [hload]
    exact dictLookup_insert_self _ _ _
  · intro u hu
    rw [hshape]
    simp only
    rw [hload]
    exact dictLookup_insert_other _ _ _ _ hu

/-- Claim C7, counterexample: a rectangle of width exactly 90 lies outside
the half-open band [40, 90) named by the claim, yet the source collects it
as a scale candidate (the test is the closed `40 <= w <= 90`) and
classification returns a non-empty tile list instead of the claimed empty
one. -/
theorem C7_counterexample :
    (¬ (40 ≤ (90 : ℚ) ∧ (90 : ℚ) < 90)) ∧
    parse_svg_tiles [⟨90, 90, 0, 0⟩] = [⟨"X1", "xs"⟩] := by
  constructor
  · norm_num
  · norm_num [parse_svg_tiles, xs_candidates, classifyWidth, assignIds,
      sizeLetter]
    decide

/-- Claim C7 (amended): scale inference collects exactly the rectangle
widths in the closed band `40 ≤ w ≤ 90`; whenever no width lies in that
closed band, classification returns the empty tile sequence (no exception
is modelled — the function is total); otherwise every rectangle width is
divided by `scale = mean(candidates) / 85` before size classification. -/
theorem C7_scale_inference (rects : List Rect) :
    (∀ r ∈ rects,
      ((40 ≤ r.width ∧ r.width ≤ 90) ↔ r.width ∈ xs_candidates rects)) ∧
    ((∀ r ∈ rects, ¬ (40 ≤ r.width ∧ r.width ≤ 90)) →
      parse_svg_tiles rects = []) ∧
    (xs_candidates rects ≠ [] →
      parse_svg_tiles rects = assignIds (fun _ => 0)
        (rects.map (fun r => classifyWidth (r.width /
          ((xs_candidates rects).sum / ((xs_candidates rects).length : ℚ)
            / 85))))) := by
  refine ⟨?_, ?_, ?_⟩
  · intro r hr
    constructor
    · intro hband
      unfold xs_candidates
      refine List.mem_map.mpr ⟨r, List.mem_filter.mpr ⟨hr, ?_⟩, rfl⟩
      simp only [Bool.and_eq_true, decide_eq_true_eq]
      exact hband
    · intro hmem
      unfold xs_candidates at hmem
      obtain ⟨r2, hr2, hw⟩ := List.mem_map.mp hmem
      have hband2 := (List.mem_filter.mp hr2).2
      simp only [Bool.and_eq_true, decide_eq_true_eq] at hband2
      rw [← hw]
      exact hband2
  · intro hnone
    exact parse_svg_tiles_of_no_candidate rects
      (xs_candidates_nil_of_none rects hnone)
  · exact parse_svg_tiles_nonempty rects

/-- Claim C7 witness: a diagram whose only rectangle has width 100 (no
candidate in the band) classifies to the empty sequence. -/
theorem C7_witness : parse_svg_tiles [⟨100, 50, 0, 0⟩] = [] := by
  refine (C7_scale_inference [⟨100, 50, 0, 0⟩]).2.1 ?_
  intro r hr
  simp only [List.mem_singleton] at hr
  subst hr
  norm_num

/-- Claim C8: the classifier assigns ids with one ordinal counter per size
class in traversal order — for each usable class `c`, the ids of the
class-`c` tiles are, in order, `prefix c ++ "1"`, `prefix c ++ "2"`, … —
every emitted tile has a usable (non-unknown) class, the resulting ids are
pairwise distinct (including across the "X" and "XL" prefixes), and the
repair-script variant produces exactly the same id sequence. -/
theorem C8_identifier_assignment (rects : List Rect) :
    ((parse_svg_tiles rects).map Tile.id).Nodup ∧
    (∀ t ∈ parse_svg_tiles rects, goodSize t.size = true) ∧
    (∀ c, goodSize c = true →
      ((parse_svg_tiles rects).filter (fun t => t.size == c)).map Tile.id
        = (List.range ((parse_svg_tiles rects).countP
            (fun t => t.size == c))).map
              (fun j => sizeLetter c ++ Nat.repr (j + 1))) ∧
    repair_parse_svg_tiles rects = (parse_svg_tiles rects).map Tile.id := by
  by_cases hce : xs_candidates rects = []
  · have hp := parse_svg_tiles_of_no_candidate rects hce
    refine ⟨by simp [hp], by simp [hp], ?_, by rw [repair_parse_eq_map_id]⟩
    intro c _
    simp [hp]
  · have hp := parse_svg_tiles_nonempty rects hce
    have hs := classified_sizes_wf rects
      ((xs_candidates rects).sum / ((xs_candidates rects).length : ℚ) / 85)
    refine ⟨?_, ?_, ?_, by rw [repair_parse_eq_map_id]⟩
    · rw [hp]
      exact assignIds_id_nodup _ _ hs
    · intro t ht
      rw [hp] at ht
      exact (assignIds_mem _ _ t hs ht).1
    · intro c hc
      have hcun : c ≠ "unknown" := by
        intro hcu
        rw [hcu] at hc
        exact absurd hc (by decide)
      rw [hp]
      rw [assignIds_filter_class _ _ c hcun]
      have hcount : (assignIds (fun _ => (0 : Nat))
            (rects.map (fun r => classifyWidth (r.width /
              ((xs_candidates rects).sum
                / ((xs_candidates rects).length : ℚ) / 85))))).countP
            (fun t => t.size == c)
          = (rects.map (fun r => classifyWidth (r.width /
              ((xs_candidates rects).sum
                / ((xs_candidates rects).length : ℚ) / 85)))).countP
            (fun sz => sz == c) := by
        rw [List.countP_eq_length_filter]
        rw [← List.length_map
          (List.filter (fun t => t.size == c) (assignIds _ _)) Tile.id]
        rw [assignIds_filter_class _ _ c hcun]
        rw [List.length_map, List.length_range]
      rw [hcount]
      apply List.map_congr_left
      intro j _
      simp

/-- Claim C8 witness: the per-class id listing instantiated at the "xs"
class of a concrete two-rectangle diagram. -/
theorem C8_witness :
    (((parse_svg_tiles [⟨85, 85, 0, 0⟩, ⟨85, 40, 10, 10⟩]).filter
        (fun t => t.size == "xs")).map Tile.id)
      = (List.range ((parse_svg_tiles [⟨85, 85, 0, 0⟩, ⟨85, 40, 10, 10⟩]).countP
          (fun t => t.size == "xs"))).map
            (fun j => sizeLetter "xs" ++ Nat.repr (j + 1)) :=
  (C8_identifier_assignment [⟨85, 85, 0, 0⟩, ⟨85, 40, 10, 10⟩]).2.2.1 "xs"
    (by decide)

/-- Claim C9: a successful shuffle keeps the number of occupied tiles and
the exact multiset (here even the exact list) of placed asset ids, and every
destination tile is drawn from the full tile universe.  The
`random.shuffle` call is modelled by an arbitrary permutation
`shuffled` of the tile-id universe; `hnd` records that the universe ids are
distinct, which `parse_svg_tiles` guarantees. -/
theorem C9_shuffle_preserves (s : AppState)
    (all_tile_ids shuffled : List String)
    (hperm : shuffled.Perm all_tile_ids) (hnd : all_tile_ids.Nodup)
    (hne : load_wall_state s.rows ≠ [])
    (hle : (load_wall_state s.rows).length ≤ all_tile_ids.length) :
    (shuffle_placement "8375" all_tile_ids shuffled s).2
        = ShuffleResult.ok ∧
    (load_wall_state
        (shuffle_placement "8375" all_tile_ids shuffled s).1.rows).length
      = (load_wall_state s.rows).length ∧
    (load_wall_state
        (shuffle_placement "8375" all_tile_ids shuffled s).1.rows).map
        Prod.snd
      = (load_wall_state s.rows).map Prod.snd ∧
    (∀ u ∈ wallKeys (load_wall_state
        (shuffle_placement "8375" all_tile_ids shuffled s).1.rows),
      u ∈ all_tile_ids) := by
  have hshape := shuffle_ok_shape s all_tile_ids shuffled hne hle
  set wall := load_wall_state s.rows with hwall
  set asset_ids := wall.map Prod.snd with hassets
  set dest := shuffled.take asset_ids.length with hdest
  have hlenw : asset_ids.length = wall.length := by
    rw [hassets]
    exact List.length_map _ _
  have hlen2 : asset_ids.length ≤ shuffled.length := by
    rw [hperm.length_eq, hlenw]
    exact hle
  have hdlen : dest.length = asset_ids.length := by
    rw [hdest, List.length_take]
    exact Nat.min_eq_left hlen2
  have hdnodup : dest.Nodup := by
    have h1 : shuffled.Nodup := hperm.nodup_iff.mpr hnd
    exact h1.sublist (List.take_sublist _ _)
  have hzip_fst : (dest.zip asset_ids).map Prod.fst = dest :=
    List.map_fst_zip _ _ (le_of_eq hdlen)
  have hzip_snd : (dest.zip asset_ids).map Prod.snd = asset_ids :=
    List.map_snd_zip _ _ (le_of_eq hdlen.symm)
  have hvals : ∀ p ∈ dest.zip asset_ids, p.2 ≠ "" := by
    intro p hp
    obtain ⟨u, b⟩ := p
    have h2 := (List.of_mem_zip hp).2
    rw [hassets] at h2
    obtain ⟨q, hq, hqe⟩ := List.mem_map.mp h2
    rw [hwall] at hq
    have := load_values_ne s.rows q hq
    simpa [← hqe] using this
  have hnew : load_wall_state
      ((shuffle_placement "8375" all_tile_ids shuffled s).1.rows)
      = dest.zip asset_ids := by
    rw [hshape]
    simp only
    rw [dictOfPairs_eq_self _ (by rw [hzip_fst]; exact hdnodup)]
    rw [save_wall_state_eq_self _
      (by unfold wallKeys; rw [hzip_fst]; exact hdnodup)]
    exact load_eq_self _ hvals
  refine ⟨by rw [hshape], ?_, ?_, ?_⟩
  · rw [hnew, List.length_zip, hdlen, Nat.min_self]
    exact hlenw
  · rw [hnew, hzip_snd]
  · intro u hu
    rw [hnew] at hu
    unfold wallKeys at hu
    rw [hzip_fst] at hu
    have h3 : u ∈ shuffled := List.take_subset _ _ (hdest ▸ hu)
    exact hperm.mem_iff.mp h3

/-- Claim C9 witness: shuffling one placed artwork across a two-tile
universe. -/
theorem C9_witness :
    (shuffle_placement "8375" ["X1", "X2"] ["X2", "X1"]
        ⟨[("X1", "a")], []⟩).2 = ShuffleResult.ok ∧
    (load_wall_state (shuffle_placement "8375" ["X1", "X2"] ["X2", "X1"]
        ⟨[("X1", "a")], []⟩).1.rows).length = 1 := by
  have h := C9_shuffle_preserves ⟨[("X1", "a")], []⟩ ["X1", "X2"]
    ["X2", "X1"] (List.Perm.swap "X1" "X2" []) (by decide) (by decide)
    (by decide)
  refine ⟨h.1, ?_⟩
  rw [h.2.1]
  rfl

/-- Claim C10 witness: overwriting an occupied tile at a concrete input. -/
theorem C10_witness :
    (assign_tile "X1" "b" ["b"] ⟨[("X1", "a")], []⟩).2 = AssignResult.ok ∧
    dictLookup "X1" (load_wall_state
        (assign_tile "X1" "b" ["b"] ⟨[("X1", "a")], []⟩).1.rows)
      = some "b" := by
  have h := C10_assign_overwrites ⟨[("X1", "a")], []⟩ "X1" "b" ["b"]
    (by decide) (by decide) (by decide) (by decide) (by decide)
  exact ⟨h.1, h.2.2.1⟩

end LastGallery
